import Mathlib

/-!
# Verification of the CapDB receipt processor

A shallow embedding of `receipt_processor.py` (class `DbCategorizer`):
the fixed category taxonomy, the sqlite-backed receipt store
(`add_receipt`, `update_receipt`), the per-item category resolution with
`difflib.get_close_matches` fuzzy correction, the response parser inside
`process_receipt`, and the aggregation queries (`get_statistics`,
`get_receipts`, `get_expense_trends`).

Python strings are modelled as `List Char` (Python compares and iterates
by code point, which coincides with `Char`); machine integers in play are
sqlite INTEGERs and Python ints, modelled as `Int`/`Nat` (no overflow in
range); fallible paths (a raised-and-caught exception) are modelled with
`Option`.
-/

namespace CapDB

/-! ## Python string primitives

`str.strip`, `str.replace`, substring membership (`in`), and `int()` as
used by the parser. `\s`/`isspace` is modelled on the ASCII whitespace
characters (the inputs in play contain only `' '` of that class; Python
additionally treats some non-ASCII Unicode spaces as whitespace, which
never occur in the modelled data). -/

/-- Python `\s` / `str.isspace` on the ASCII range. -/
def pySpace (c : Char) : Bool :=
  c = ' ' ∨ c = '\t' ∨ c = '\n' ∨ c = '\r' ∨ c = '\x0b' ∨ c = '\x0c'

/-- Python `str.isdigit` / regex `\d` on the ASCII range (Unicode digits
never occur in the modelled data). -/
def pyDigit (c : Char) : Bool := '0' ≤ c ∧ c ≤ '9'

/-- Python `str.strip()`: drop whitespace from both ends. -/
def pyStrip (s : List Char) : List Char :=
  ((s.dropWhile pySpace).reverse.dropWhile pySpace).reverse

/-- Python `str.replace(pat, rep)` for a nonempty `pat`: replace every
(non-overlapping, left-to-right) occurrence.  Fuel is the string length;
each step consumes at least one character, so `s.length` fuel is exact.
(`pat = []` is never used by the source and is modelled as the identity.) -/
def pyReplaceF : Nat → List Char → List Char → List Char → List Char
  | _, [], _, _ => []
  | 0, s, _, _ => s
  | f + 1, c :: cs, pat, rep =>
    if pat ≠ [] ∧ pat.isPrefixOf (c :: cs) then
      rep ++ pyReplaceF f ((c :: cs).drop pat.length) pat rep
    else
      c :: pyReplaceF f cs pat rep

def pyReplace (s pat rep : List Char) : List Char :=
  pyReplaceF s.length s pat rep

/-- Python `str.split(sep)` for a nonempty separator: split at every
occurrence, keeping empty pieces (`"".split(sep) = [""]`).  Fuel is the
string length; each step consumes at least one character. -/
def pySplitF : Nat → List Char → List Char → List (List Char)
  | _, [], _ => [[]]
  | 0, s, _ => [s]
  | f + 1, c :: cs, sep =>
    if sep ≠ [] ∧ sep.isPrefixOf (c :: cs) then
      [] :: pySplitF f ((c :: cs).drop sep.length) sep
    else
      match pySplitF f cs sep with
      | head :: tail => (c :: head) :: tail
      | [] => [[c]]

def pySplit (s sep : List Char) : List (List Char) :=
  pySplitF s.length s sep

/-- Python `sub in s` (substring containment). -/
def pyContains (s sub : List Char) : Bool := decide (sub <:+: s)

/-- Python `int()` on a cleaned numeric string: optional surrounding
whitespace, optional sign, then a nonempty digit run; anything else raises
`ValueError`, modelled as `none`.  (Underscore digit grouping, accepted by
Python between digits, never occurs in the modelled data.) -/
def pyInt (s : List Char) : Option Int :=
  let t := pyStrip s
  let (sign, digits) :=
    match t with
    | '-' :: rest => ((-1 : Int), rest)
    | '+' :: rest => ((1 : Int), rest)
    | rest => ((1 : Int), rest)
  if digits ≠ [] ∧ digits.all pyDigit then
    some (sign * (digits.foldl (fun acc c => acc * 10 + (c.toNat - '0'.toNat)) 0 : Nat))
  else none

/-- Python code-point lexicographic `<` on strings (used by tuple
comparison inside `heapq.nlargest`). -/
def pyStrLt : List Char → List Char → Bool
  | [], [] => false
  | [], _ :: _ => true
  | _ :: _, [] => false
  | a :: as, b :: bs => if a = b then pyStrLt as bs else decide (a < b)

/-! ## `difflib.SequenceMatcher` (no junk, sequences under the autojunk
threshold)

`find_longest_match` is specified by its contract: of all maximal
matching blocks, the one starting earliest in `a`, then earliest in `b`.
`ratio()` is `2*M / (len(a)+len(b))` where `M` is the total size of the
matching blocks, computed exactly in `ℚ` (the Python float computation
rounds the same exact rational; with the tiny numerators and denominators
in play, distinct rationals are separated by far more than the rounding
error, so exact comparison agrees with the float comparison). -/

/-- Length of the common prefix of two character lists. -/
def commonLen : List Char → List Char → Nat
  | a :: as, b :: bs => if a = b then commonLen as bs + 1 else 0
  | _, _ => 0

/-- All index pairs `(i, j)`, `i < a.length`, `j < b.length`, in
lexicographic order. -/
def pairList (a b : List Char) : List (Nat × Nat) :=
  (List.range a.length).flatMap fun i => (List.range b.length).map fun j => (i, j)

/-- Fold step of `find_longest_match`: a candidate block replaces the best
one only when strictly longer, so the earliest (in lexicographic `(i, j)`
order) block of maximal length wins — the documented contract of
`SequenceMatcher.find_longest_match` with no junk. -/
def bestMatchGo (a b : List Char) : List (Nat × Nat) → Nat × Nat × Nat → Nat × Nat × Nat
  | [], best => best
  | (i, j) :: rest, best =>
    let k := commonLen (a.drop i) (b.drop j)
    bestMatchGo a b rest (if best.2.2 < k then (i, j, k) else best)

/-- `SequenceMatcher.find_longest_match` over the whole of `a` and `b`:
`(i, j, size)` of the longest matching block, earliest in `a` then in `b`. -/
def bestMatch (a b : List Char) : Nat × Nat × Nat :=
  bestMatchGo a b (pairList a b) (0, 0, 0)

/-- Total size of the matching blocks (`get_matching_blocks`): recursively
split around the longest match.  Each recursive call strictly decreases the
total length, so `a.length + b.length` fuel is exact. -/
def matchingSizeF : Nat → List Char → List Char → Nat
  | 0, _, _ => 0
  | f + 1, a, b =>
    let m := bestMatch a b
    if m.2.2 = 0 then 0
    else
      matchingSizeF f (a.take m.1) (b.take m.2.1) + m.2.2 +
        matchingSizeF f (a.drop (m.1 + m.2.2)) (b.drop (m.2.1 + m.2.2))

def matchingSize (a b : List Char) : Nat :=
  matchingSizeF (a.length + b.length) a b

/-- `SequenceMatcher(a=x, b=word).ratio()`, exactly:
`2*M / (len(a)+len(b))`, and `1` when both are empty
(`_calculate_ratio`). -/
def pyRatio (a b : List Char) : ℚ :=
  if a.length + b.length = 0 then 1
  else (2 * matchingSize a b : ℚ) / (a.length + b.length : ℚ)

/-- `ratio()` as an exact fraction `(numerator, denominator)` with a
positive denominator — the executable counterpart of `pyRatio`
(`pyRatio a b = (ratioPair a b).1 / (ratioPair a b).2`, proved below). -/
def ratioPair (a b : List Char) : Nat × Nat :=
  if a.length + b.length = 0 then (1, 1)
  else (2 * matchingSize a b, a.length + b.length)

/-- `ratio() >= 0.4` (the cutoff `0.4` rounds to a float a hair above
`2/5`, but the exact ratios in play are separated from `2/5` by far more
than that rounding error except when exactly equal, where both sides
round to the same float and the comparison holds — so the float test is
exactly the rational test against `2/5`). -/
def ratioGeCutoffB (a b : List Char) : Bool :=
  5 * (ratioPair a b).1 ≥ 2 * (ratioPair a b).2

/-- `ratio(a, w) < ratio(b, w)` by cross-multiplication (denominators are
positive). -/
def ratioLtB (a b w : List Char) : Bool :=
  (ratioPair a w).1 * (ratioPair b w).2 < (ratioPair b w).1 * (ratioPair a w).2

/-- `ratio(a, w) == ratio(b, w)` by cross-multiplication. -/
def ratioEqB (a b w : List Char) : Bool :=
  (ratioPair a w).1 * (ratioPair b w).2 = (ratioPair b w).1 * (ratioPair a w).2

/-- `difflib.get_close_matches(word, possibilities, n=1, cutoff=0.4)`:
keep the possibilities whose ratio to `word` reaches the cutoff
(`real_quick_ratio`/`quick_ratio` are upper bounds of `ratio`, so the
triple test is exactly `ratio ≥ cutoff`), then take the largest scored
`(ratio, string)` pair — `heapq.nlargest` compares the pairs
lexicographically, so a ratio tie is broken toward the code-point-larger
string, and an earlier list element is kept over an equal later one. -/
def getCloseMatches1Go (word : List Char) : List (List Char) → Option (List Char) → Option (List Char)
  | [], best => best
  | x :: rest, best =>
    if ratioGeCutoffB x word then
      match best with
      | none => getCloseMatches1Go word rest (some x)
      | some b =>
        if ratioLtB b x word || (ratioEqB b x word && pyStrLt b x) then
          getCloseMatches1Go word rest (some x)
        else getCloseMatches1Go word rest (some b)
    else getCloseMatches1Go word rest best

def getCloseMatches1 (word : List Char) (possibilities : List (List Char)) :
    Option (List Char) :=
  getCloseMatches1Go word possibilities none

/-! ## The fixed taxonomy and the seeded category tables

`DbCategorizer.__init__` defines `valid_categories` and `_init_db` seeds
`main_categories` / `sub_categories` from it, in dictionary order, with
`AUTOINCREMENT` ids starting at 1 (so an id is its insertion position + 1
and is never 0, making Python truthiness of an id equal to `isSome`). -/

/-- `self.valid_categories` from `DbCategorizer.__init__`, in source
order. -/
def validCategories : List (String × List String) :=
  [("미용", ["피부 미용", "헤어", "화장"]),
   ("쇼핑", ["생필품", "의류", "가전", "가구", "식재료", "장난감", "화장품", "스마트기기"]),
   ("교통", ["택시", "대중교통", "여객선", "기차", "항공기", "주유"]),
   ("의료", ["약품", "진료"]),
   ("여행", ["식비", "숙박비", "티켓"]),
   ("음식", ["아침", "점심", "저녁", "간식", "음료", "과일", "디저트", "유제품"]),
   ("취미", ["게임", "영화", "공연", "놀이공원", "운동", "도서"]),
   ("투자", ["교육", "보험", "주식", "부동산", "신용카드"]),
   ("공과금", ["통신비", "전기세", "가스비", "구독료", "멤버십", "인터넷 요금", "휴대폰 요금", "세금"])]

/-- `valid_categories.get(cat, [])`. -/
def subcatsOf (cat : String) : List String :=
  ((validCategories.find? fun p => p.1 = cat).map Prod.snd).getD []

/-- The seeded `main_categories` table: names in insertion order, id =
position + 1. -/
def mainCategories : List String := validCategories.map Prod.fst

/-- The seeded `sub_categories` table: `(main_category_id, name)` rows in
insertion order, id = position + 1. -/
def subCategories : List (Nat × String) :=
  (validCategories.enum.flatMap fun p => p.2.2.map fun s => (p.1 + 1, s))

/-- Position of the first list element satisfying `p`. -/
def findPos (p : α → Bool) : List α → Option Nat
  | [] => none
  | x :: xs => if p x then some 0 else (findPos p xs).map (· + 1)

/-- `SELECT id FROM main_categories WHERE name = ?` (first row). -/
def mainIdOf (name : String) : Option Nat :=
  (findPos (fun n => n = name) mainCategories).map (· + 1)

/-- `SELECT id FROM sub_categories WHERE main_category_id = ? AND name = ?`
(first row). -/
def subIdOf (mainId : Nat) (name : String) : Option Nat :=
  (findPos (fun e => e.1 = mainId ∧ e.2 = name) subCategories).map (· + 1)

/-- `DbCategorizer._get_category_ids`: the main-category id by name, and —
only when the main id exists — the sub-category id under it. -/
def getCategoryIds (mainCategory subCategory : String) : Option Nat × Option Nat :=
  match mainIdOf mainCategory with
  | none => (none, none)
  | some m => (some m, subIdOf m subCategory)

/-- The per-item resolution step shared by the loops of
`DbCategorizer.add_receipt` and `DbCategorizer.update_receipt`: exact
lookup via `_get_category_ids`; if either id is missing, fuzzy correction
by `get_close_matches(subcategory, valid_categories.get(category, []),
n=1, cutoff=0.4)` followed by a second exact lookup; the item is inserted
only when both ids end up present (ids are positive, so Python truthiness
is `isSome`). -/
def resolveIds (category subcategory : String) : Option (Nat × Nat) :=
  match getCategoryIds category subcategory with
  | (some m, some s) => some (m, s)
  | _ =>
    match getCloseMatches1 subcategory.data ((subcatsOf category).map String.data) with
    | some best =>
      match getCategoryIds category (String.mk best) with
      | (some m, some s) => some (m, s)
      | _ => none
    | none => none

/-! ## The receipt store -/

/-- A row of the `receipts` table (the `created_at` column is
sqlite-defaulted and never read by the modelled code). -/
structure ReceiptRow where
  id : Nat
  store_name : String
  date : String
  total_amount : Int
  deriving Repr, DecidableEq

/-- A row of the `items` table. -/
structure ItemRow where
  receipt_id : Nat
  name : String
  main_category_id : Nat
  sub_category_id : Nat
  amount : Int
  deriving Repr, DecidableEq

/-- An item of the `items` argument of `add_receipt` / `update_receipt`
(a parsed draft item). -/
structure ItemIn where
  name : String
  category : String
  subcategory : String
  amount : Int
  deriving Repr, DecidableEq

/-- The mutable database state: the `receipts` and `items` tables and the
`AUTOINCREMENT` counter of `receipts` (`main_categories` /
`sub_categories` are seeded once and never modified, so they stay the
constants above). -/
structure DB where
  receipts : List ReceiptRow
  items : List ItemRow
  nextReceiptId : Nat
  deriving Repr, DecidableEq

/-- The state right after `_init_db`: empty `receipts` and `items`. -/
def DB.init : DB := ⟨[], [], 1⟩

/-- The item loop shared by `add_receipt` and `update_receipt`: resolve
each item in order and insert its row; the first unresolvable item stops
the loop with `False` (Python `return None`/`return False` from inside
`with sqlite3.connect(...)` exits the context manager without an
exception, which **commits**, so the rows inserted so far are kept). -/
def insertItems (db : DB) (rid : Nat) : List ItemIn → DB × Bool
  | [] => (db, true)
  | it :: rest =>
    match resolveIds it.category it.subcategory with
    | some (m, s) =>
      insertItems
        { db with items := db.items ++ [⟨rid, it.name, m, s, it.amount⟩] } rid rest
    | none => (db, false)

/-- `DbCategorizer.add_receipt`: insert the receipt row (its id is
`lastrowid`), then the items; an unresolvable item returns `None` with the
receipt row and the already-inserted item rows committed. -/
def addReceipt (db : DB) (store_name date : String) (items : List ItemIn)
    (total_amount : Int) : DB × Option Nat :=
  let rid := db.nextReceiptId
  let db1 : DB :=
    { db with
      receipts := db.receipts ++ [⟨rid, store_name, date, total_amount⟩],
      nextReceiptId := rid + 1 }
  let r := insertItems db1 rid items
  (r.1, if r.2 then some rid else none)

/-- `DbCategorizer.update_receipt`: update the scalar columns of the row
with the given id (a missing id updates nothing), delete the items of that
receipt, then reinsert the argument items under the same resolution rule;
a resolution failure returns `False` with the partial state committed. -/
def updateReceipt (db : DB) (receipt_id : Nat) (store_name date : String)
    (items : List ItemIn) (total_amount : Int) : DB × Bool :=
  let db1 : DB :=
    { db with
      receipts := db.receipts.map fun r =>
        if r.id = receipt_id then
          { r with store_name := store_name, date := date, total_amount := total_amount }
        else r }
  let db2 : DB := { db1 with items := db1.items.filter fun it => it.receipt_id ≠ receipt_id }
  insertItems db2 receipt_id items

/-! ## `_is_valid_category` — the parser's validation map

`DbCategorizer._is_valid_category` carries its **own** copy of the
category map, distinct from `valid_categories` of `__init__`: only five
main categories, and `미용` has an extra `세정` subcategory. -/

/-- The `valid_categories` dictionary local to `_is_valid_category`. -/
def parserValidCategories : List (String × List String) :=
  [("음식", ["음료", "간식", "아침", "점심", "저녁", "디저트", "과일", "유제품"]),
   ("쇼핑", ["생필품", "의류", "가전", "가구", "식재료", "장난감", "화장품", "스마트기기"]),
   ("교통", ["택시", "대중교통", "여객선", "기차", "항공기", "주유"]),
   ("미용", ["피부 미용", "헤어", "화장", "세정"]),
   ("취미", ["게임", "영화", "공연", "놀이공원", "운동", "도서"])]

/-- `DbCategorizer._is_valid_category`: strip both inputs, require the
category to be a key of the local map and the subcategory to be listed
under it. -/
def isValidCategory (category subcategory : String) : Bool :=
  let category := String.mk (pyStrip category.data)
  let subcategory := String.mk (pyStrip subcategory.data)
  match parserValidCategories.find? fun p => p.1 = category with
  | none => false
  | some p => p.2.contains subcategory

/-! ## The total-amount regular expressions

`process_receipt` tests each line against six patterns of the shape
`LABEL \s* [:：]? \s* ([\d,\s]+)` (the label itself may contain interior
`\s*`).  The patterns are modelled as token lists and matched with full
backtracking; `re.search` takes the earliest start position that allows a
match.  The capture class `[\d,\s]` is digits, comma and whitespace. -/

inductive RTok where
  | lit (c : Char)
  | wsStar
  | colonOpt
  | capture
  deriving Repr, DecidableEq

/-- A character of the capture class `[\d,\s]`. -/
def capClass (c : Char) : Bool := pyDigit c ∨ c = ',' ∨ pySpace c

/-- Match a token list against a prefix of `s`, returning the capture.
`wsStar` is greedy with backtracking (longest whitespace run first);
`[:：]?` tries the consuming branch first; the capture `([\d,\s]+)` is the
final token of every pattern, so it greedily takes the maximal nonempty
run of its class. -/
def reMatch : List RTok → List Char → Option (List Char)
  | [RTok.capture], s =>
    let run := s.takeWhile capClass
    if run = [] then none else some run
  | RTok.lit c :: rest, s =>
    match s with
    | [] => none
    | x :: xs => if x = c then reMatch rest xs else none
  | RTok.colonOpt :: rest, s =>
    match s with
    | x :: xs =>
      if x = ':' ∨ x = '：' then reMatch rest xs <|> reMatch rest (x :: xs)
      else reMatch rest (x :: xs)
    | [] => reMatch rest []
  | RTok.wsStar :: rest, s =>
    ((List.range ((s.takeWhile pySpace).length + 1)).reverse).findSome? fun k =>
      reMatch rest (s.drop k)
  | _, _ => none

/-- `re.search`: the match at the earliest start position. -/
def reSearch (p : List RTok) : List Char → Option (List Char)
  | [] => reMatch p []
  | c :: cs => reMatch p (c :: cs) <|> reSearch p cs

/-- Literal tokens of a label string. -/
def lits (s : String) : List RTok := s.data.map RTok.lit

/-- The common tail `\s*[:：]?\s*([\d,\s]+)` of every total pattern. -/
def totalTail : List RTok := [RTok.wsStar, RTok.colonOpt, RTok.wsStar, RTok.capture]

/-- The six `total_patterns` of `process_receipt`, in priority order
(the identical `ocr_total_patterns` list is used for the OCR fallback). -/
def totalPatterns : List (List RTok) :=
  [lits "총" ++ [RTok.wsStar] ++ lits "결제" ++ [RTok.wsStar] ++ lits "금액" ++ totalTail,
   lits "총결제금액" ++ totalTail,
   lits "합계" ++ totalTail,
   lits "총액" ++ totalTail,
   lits "결제금액" ++ totalTail,
   lits "총금액" ++ totalTail]

/-- The `for pattern in total_patterns` loop body: the first pattern with a
match anywhere in the line wins, returning its capture group. -/
def searchTotalPatterns (s : List Char) : Option (List Char) :=
  totalPatterns.findSome? fun p => reSearch p s

/-- `int(match.group(1).replace(",", "").replace(" ", ""))` — the cleaning
removes commas and plain spaces (not other whitespace). -/
def parseTotalCapture (grp : List Char) : Option Int :=
  pyInt (pyReplace (pyReplace grp [','] []) [' '] [])

/-! ## The date pattern `\d{4}-\d{2}-\d{2}` -/

/-- Does `\d{4}-\d{2}-\d{2}` match at the head of `s`? -/
def dateAt : List Char → Bool
  | a :: b :: c :: d :: h1 :: e :: f :: h2 :: g :: h :: _ =>
    pyDigit a ∧ pyDigit b ∧ pyDigit c ∧ pyDigit d ∧ h1 = '-' ∧
    pyDigit e ∧ pyDigit f ∧ h2 = '-' ∧ pyDigit g ∧ pyDigit h
  | _ => false

/-- `re.search(r'\d{4}-\d{2}-\d{2}', s)`: the earliest ten-character
window matching the pattern. -/
def findDate : List Char → Option (List Char)
  | [] => none
  | c :: cs => if dateAt (c :: cs) then some ((c :: cs).take 10) else findDate cs

/-- `re.sub(r'\d{4}-\d{2}-\d{2}', '', s)`: delete every non-overlapping
occurrence, left to right.  Fuel is the string length; every step consumes
at least one character. -/
def removeDatesF : Nat → List Char → List Char
  | _, [] => []
  | 0, s => s
  | f + 1, c :: cs =>
    if dateAt (c :: cs) then removeDatesF f ((c :: cs).drop 10)
    else c :: removeDatesF f cs

def removeDates (s : List Char) : List Char := removeDatesF s.length s

/-! ## The response parser of `process_receipt`

The per-line loop over `response.strip().split('\n')` with its four
stages (store name, date, item triple, total), followed by the
missing-field checks and the OCR fallback for the total.  A `ValueError`
raised by `int()` inside the loop propagates to the enclosing
`try`/`except`, failing the whole parse: modelled by `Option`. -/

/-- The loop state: `store_name` (Python `None` and the falsy `""` are
both modelled as `none`, which the code treats identically), `date`,
the accepted draft items, and `total_amount`. -/
structure ParseState where
  store_name : Option String
  date : Option String
  items : List ItemIn
  total_amount : Option Int
  deriving Repr, DecidableEq

def ParseState.init : ParseState := ⟨none, none, [], none⟩

/-- `DbCategorizer._parse_store_name`: drop the `가게명:` label, strip,
delete embedded dates, strip. -/
def parseStoreName (line : List Char) : List Char :=
  pyStrip (removeDates (pyStrip (pyReplace line "가게명:".data [])))

/-- `DbCategorizer._parse_date`: drop the `날짜:` label, strip, extract
the first `YYYY-MM-DD` occurrence. -/
def parseDate (line : List Char) : Option (List Char) :=
  findDate (pyStrip (pyReplace line "날짜:".data []))

/-- `re.search(r'\(([^)]+)\)', line)`: at the earliest `(` followed by a
nonempty run of non-`)` characters and then `)`, capture that run. -/
def findParen : List Char → Option (List Char)
  | [] => none
  | c :: cs =>
    if c = '(' then
      let run := cs.takeWhile fun x => x ≠ ')'
      if run ≠ [] ∧ (cs.drop run.length).head? = some ')' then some run
      else findParen cs
    else findParen cs

/-- Stage 4 of the line loop — the total patterns.  Note the source has
**no** `if not total_amount` guard here: a match on any line overwrites
the previous value (the trailing `if total_amount: continue` is the last
statement of the body and has no effect). -/
def stepTotal (st : ParseState) (line : List Char) : Option ParseState :=
  match searchTotalPatterns line with
  | some grp =>
    match parseTotalCapture grp with
    | some v => some { st with total_amount := some v }
    | none => none
  | none => some st

/-- Stage 3 — the `name:category:subcategory (amount)` item triple; falls
through to the total stage in every case that does not raise. -/
def stepItem (st : ParseState) (line : List Char) : Option ParseState :=
  if pyContains line ":".data ∧ pyContains line "(".data ∧ pyContains line ")".data then
    match pySplit line ":".data with
    | p0 :: p1 :: p2 :: _ =>
      match findParen line with
      | some grp =>
        match pyInt (pyReplace (pyReplace grp [','] []) "원".data []) with
        | some amount =>
          if isValidCategory (String.mk (pyStrip p1))
              (String.mk (pyStrip ((pySplit p2 "(".data).headD []))) then
            stepTotal
              { st with items := st.items ++
                  [⟨String.mk (pyStrip p0), String.mk (pyStrip p1),
                    String.mk (pyStrip ((pySplit p2 "(".data).headD [])), amount⟩] }
              line
          else stepTotal st line
        | none => none
      | none => stepTotal st line
    | _ => stepTotal st line
  else stepTotal st line

/-- Stage 2 — the date. -/
def stepDate (st : ParseState) (line : List Char) : Option ParseState :=
  if st.date.isNone ∧ (pyContains line "날짜:".data ∨ (findDate line).isSome) then
    match parseDate line with
    | some d => some { st with date := some (String.mk d) }
    | none => stepItem st line
  else stepItem st line

/-- One iteration of the `for line in lines` loop: strip, skip empties,
then the four stages with their `continue`s. -/
def processLine (st : ParseState) (line0 : List Char) : Option ParseState :=
  let line := pyStrip line0
  if line = [] then some st
  else if st.store_name.isNone ∧ (pyContains line "가게명:".data ∨ ¬ line.any pyDigit) then
    let s := parseStoreName line
    if s ≠ [] then some { st with store_name := some (String.mk s) }
    else stepDate st line
  else stepDate st line

def processLines (st : ParseState) : List (List Char) → Option ParseState
  | [] => some st
  | l :: ls => (processLine st l).bind fun st' => processLines st' ls

/-- The draft record assembled by `process_receipt` just before
`add_receipt` is called. -/
structure Draft where
  store_name : String
  date : String
  items : List ItemIn
  total_amount : Int
  deriving Repr, DecidableEq

/-- Python truthiness of `total_amount : Option Int` (both `None` and `0`
are falsy). -/
def totalTruthy : Option Int → Bool
  | none => false
  | some v => v ≠ 0

/-- The parsing part of `DbCategorizer.process_receipt`: split the model
response into lines, run the loop, check the required fields, and fall
back to scanning the raw OCR text with the same patterns when the total is
missing (or zero, by truthiness).  Returns the draft handed to
`add_receipt`, or `none` on failure. -/
def parseResponse (response receipt_text : String) : Option Draft :=
  let lines := pySplit (pyStrip response.data) "\n".data
  (processLines ParseState.init lines).bind fun st =>
    match st.store_name with
    | none => none
    | some store =>
      match st.date with
      | none => none
      | some date =>
        if st.items = [] then none
        else
          let totalStep : Option (Option Int) :=
            if totalTruthy st.total_amount then some st.total_amount
            else
              match searchTotalPatterns receipt_text.data with
              | some grp =>
                match parseTotalCapture grp with
                | some v => some (some v)
                | none => none
              | none => some st.total_amount
          totalStep.bind fun total =>
            if totalTruthy total then
              some ⟨store, date, st.items, total.getD 0⟩
            else none

/-! ## `get_statistics`

The statistics query joins `items` with `receipts`, `main_categories` and
`sub_categories`, groups by `(strftime(fmt, r.date), mc.name, sc.name)`
and orders by period descending then total descending; the Python loop
then folds the rows into a nested dict (insertion-ordered, modelled as
association lists).  Group keys are collected in first-occurrence order
and the sort is stable — sqlite leaves the relative order of rows equal
under the `ORDER BY` unspecified, and this is the deterministic
refinement chosen here (no claim depends on such a tie). -/

/-- The `date_format` dictionary lookup with default `'%Y-%m'`
(`.get(period, '%Y-%m')`). -/
def dateFormatOf (period : String) : String :=
  if period = "daily" then "%Y-%m-%d"
  else if period = "monthly" then "%Y-%m"
  else if period = "yearly" then "%Y"
  else "%Y-%m"

/-- `strftime(fmt, d)` for the three formats in play, on the canonical
`YYYY-MM-DD` date strings the store persists: truncation to 10, 7 or 4
characters. -/
def strfPeriod (fmt : String) (d : String) : String :=
  if fmt = "%Y-%m-%d" then d
  else if fmt = "%Y-%m" then String.mk (d.data.take 7)
  else if fmt = "%Y" then String.mk (d.data.take 4)
  else d

/-- One pre-aggregation row of the statistics join:
`(period, main_category, sub_category, amount)`.  An item row joins at
most one row of each joined table (ids and names are unique); an orphaned
item whose `receipt_id`, `main_category_id` or `sub_category_id` matches
no row is dropped by the inner join. -/
def statJoinRows (db : DB) (fmt : String) : List (String × String × String × Int) :=
  db.items.filterMap fun it =>
    (db.receipts.find? fun r => r.id = it.receipt_id).bind fun r =>
      (mainCategories.get? (it.main_category_id - 1)).bind fun mc =>
        (subCategories.get? (it.sub_category_id - 1)).map fun sc =>
          (strfPeriod fmt r.date, mc, sc.2, it.amount)

/-- Distinct elements in first-occurrence order. -/
def firstDedup [DecidableEq α] : List α → List α
  | [] => []
  | x :: xs => x :: (firstDedup xs).filter fun y => y ≠ x

/-- An aggregated row of the statistics query:
`(period, main_category, sub_category, COUNT(*), SUM(amount))`. -/
structure StatRow where
  period : String
  main_category : String
  sub_category : String
  count : Nat
  total_amount : Int
  deriving Repr, DecidableEq

/-- String comparison as sqlite orders TEXT (byte order of UTF-8, which is
code-point order). -/
def strLtB : List Char → List Char → Bool
  | [], [] => false
  | [], _ :: _ => true
  | _ :: _, [] => false
  | a :: as, b :: bs => if a = b then strLtB as bs else decide (a < b)

/-- `ORDER BY period DESC, total_amount DESC` as a total preorder:
`a` may come before `b`. -/
def statRowLe (a b : StatRow) : Bool :=
  if a.period = b.period then b.total_amount ≤ a.total_amount
  else strLtB b.period.data a.period.data

/-- Stable insertion sort by a Boolean preorder. -/
def insertSorted (le : α → α → Bool) (x : α) : List α → List α
  | [] => [x]
  | y :: ys => if le x y then x :: y :: ys else y :: insertSorted le x ys

def sortByLe (le : α → α → Bool) : List α → List α
  | [] => []
  | x :: xs => insertSorted le x (sortByLe le xs)

/-- The result rows of the statistics query. -/
def statRows (db : DB) (fmt : String) : List StatRow :=
  let rows := statJoinRows db fmt
  let keys := firstDedup (rows.map fun r => (r.1, r.2.1, r.2.2.1))
  sortByLe statRowLe <| keys.map fun k =>
    let group := rows.filter fun r => (r.1, r.2.1, r.2.2.1) = k
    ⟨k.1, k.2.1, k.2.2, group.length, (group.map fun r => r.2.2.2).sum⟩

/-- Leaf of the structured statistics: `{'count': …, 'total_amount': …}`. -/
structure SubStat where
  count : Nat
  total_amount : Int
  deriving Repr, DecidableEq

/-- Per-main-category node: rolled-up total and per-subcategory leaves. -/
structure CatStat where
  total_amount : Int
  subcategories : List (String × SubStat)
  deriving Repr, DecidableEq

/-- Per-period node: rolled-up total and per-category nodes. -/
structure PeriodStat where
  total_amount : Int
  categories : List (String × CatStat)
  deriving Repr, DecidableEq

/-- Insertion-ordered dict update: ensure the key is present (appending
the default when absent, as a Python dict does), then modify its value. -/
def upsert (k : String) (d : β) (f : β → β) : List (String × β) → List (String × β)
  | [] => [(k, f d)]
  | (k', v) :: rest =>
    if k' = k then (k', f v) :: rest else (k', v) :: upsert k d f rest

/-- Overwriting insertion-ordered dict assignment (`d[k] = v`). -/
def setKey (k : String) (v : β) : List (String × β) → List (String × β)
  | [] => [(k, v)]
  | (k', v') :: rest =>
    if k' = k then (k', v) :: rest else (k', v') :: setKey k v rest

/-- The Python structuring loop of `get_statistics`: per row, ensure the
period and category nodes, assign the subcategory leaf and add the row
total to the category and period roll-ups. -/
def statsInsert (stats : List (String × PeriodStat)) (row : StatRow) :
    List (String × PeriodStat) :=
  upsert row.period ⟨0, []⟩
    (fun ps =>
      { total_amount := ps.total_amount + row.total_amount,
        categories :=
          upsert row.main_category ⟨0, []⟩
            (fun cs =>
              { total_amount := cs.total_amount + row.total_amount,
                subcategories :=
                  setKey row.sub_category ⟨row.count, row.total_amount⟩ cs.subcategories })
            ps.categories })
    stats

/-- `DbCategorizer.get_statistics` (the query cannot fail: every column it
names exists). -/
def getStatistics (db : DB) (period : String) : List (String × PeriodStat) :=
  (statRows db (dateFormatOf period)).foldl statsInsert []

/-! ## `get_receipts` and `get_expense_trends` — the schema-mismatched
queries

The `receipts` table created by `_init_db` has columns
`id, store_name, date, total_amount, created_at` and nothing else. -/

/-- The columns of the `receipts` table. -/
def receiptsTableCols : List String :=
  ["id", "store_name", "date", "total_amount", "created_at"]

/-- The columns `get_receipts` selects `FROM receipts`. -/
def getReceiptsQueryCols : List String :=
  ["store_name", "date", "total_amount", "category", "subcategory"]

/-- `DbCategorizer.get_receipts`: its query names the columns `category`
and `subcategory`, which the `receipts` table does not have, so
`cursor.execute` raises `sqlite3.OperationalError` before reading any row
— for every database state — and the `except sqlite3.Error` handler
returns `[]`. -/
def getReceipts (_db : DB) : List (String × String × Int × String × String) := []

/-- The `receipts` columns named by the `get_expense_trends` query text:
`date` and `amount` always, plus `category` when the filter is added. -/
def trendsQueryCols (category : Option String) : List String :=
  ["date", "amount"] ++ (if category.isSome then ["category"] else [])

/-- The structured result `get_expense_trends` would return. -/
structure TrendsResult where
  periods : List String
  amounts : List Int
  total : Int
  deriving Repr, DecidableEq

/-- `DbCategorizer.get_expense_trends`: its query sums the column
`amount` of `receipts` (and filters on `category`), columns the table does
not have, so `cursor.execute` raises `sqlite3.OperationalError` before
reading any row — for every database state and every argument — and the
handler returns `None`. -/
def getExpenseTrends (_db : DB) (_category : Option String) (_period : String) :
    Option TrendsResult := none

/-! ## Lemmas about the `SequenceMatcher` model -/

theorem commonLen_nil_left (b : List Char) : commonLen [] b = 0 := by
  cases b <;> rfl

theorem commonLen_nil_right (a : List Char) : commonLen a [] = 0 := by
  cases a <;> rfl

theorem commonLen_le_left : ∀ a b : List Char, commonLen a b ≤ a.length
  | [], b => by simp [commonLen_nil_left]
  | _ :: _, [] => by simp [commonLen_nil_right]
  | a :: as, b :: bs => by
    simp only [commonLen]
    split
    · exact Nat.succ_le_succ (commonLen_le_left as bs)
    · exact Nat.zero_le _

theorem commonLen_le_right : ∀ a b : List Char, commonLen a b ≤ b.length
  | [], b => by simp [commonLen_nil_left]
  | _ :: _, [] => by simp [commonLen_nil_right]
  | a :: as, b :: bs => by
    simp only [commonLen]
    split
    · exact Nat.succ_le_succ (commonLen_le_right as bs)
    · exact Nat.zero_le _

theorem commonLen_self : ∀ x : List Char, commonLen x x = x.length
  | [] => rfl
  | c :: cs => by simp [commonLen, commonLen_self cs]

/-- Elements of `pairList` are in range. -/
theorem pairList_mem {a b : List Char} {p : Nat × Nat} (h : p ∈ pairList a b) :
    p.1 < a.length ∧ p.2 < b.length := by
  simp only [pairList, List.mem_flatMap, List.mem_map, List.mem_range] at h
  obtain ⟨i, hi, j, hj, rfl⟩ := h
  exact ⟨hi, hj⟩

/-- The fold of `find_longest_match` preserves the block bounds. -/
theorem bestMatchGo_bounds (a b : List Char) :
    ∀ (l : List (Nat × Nat)) (best : Nat × Nat × Nat),
      (∀ p ∈ l, p.1 < a.length ∧ p.2 < b.length) →
      best.1 + best.2.2 ≤ a.length → best.2.1 + best.2.2 ≤ b.length →
      (bestMatchGo a b l best).1 + (bestMatchGo a b l best).2.2 ≤ a.length ∧
        (bestMatchGo a b l best).2.1 + (bestMatchGo a b l best).2.2 ≤ b.length := by
  intro l
  induction l with
  | nil => intro best _ h1 h2; exact ⟨h1, h2⟩
  | cons p rest ih =>
    intro best hmem h1 h2
    obtain ⟨i, j⟩ := p
    have hp := hmem (i, j) (List.mem_cons_self _ _)
    simp only at hp
    simp only [bestMatchGo]
    split
    · refine ih _ (fun q hq => hmem q (List.mem_cons_of_mem _ hq)) ?_ ?_
      · show i + commonLen (a.drop i) (b.drop j) ≤ a.length
        have := commonLen_le_left (a.drop i) (b.drop j)
        simp only [List.length_drop] at this
        omega
      · show j + commonLen (a.drop i) (b.drop j) ≤ b.length
        have := commonLen_le_right (a.drop i) (b.drop j)
        simp only [List.length_drop] at this
        omega
    · exact ih _ (fun q hq => hmem q (List.mem_cons_of_mem _ hq)) h1 h2

theorem bestMatch_bounds (a b : List Char) :
    (bestMatch a b).1 + (bestMatch a b).2.2 ≤ a.length ∧
      (bestMatch a b).2.1 + (bestMatch a b).2.2 ≤ b.length := by
  exact bestMatchGo_bounds a b (pairList a b) (0, 0, 0)
    (fun p hp => pairList_mem hp) (by simp) (by simp)

/-- The fold never decreases the recorded size and ends at least as large
as every candidate block in the remaining pair list. -/
theorem bestMatchGo_ge (a b : List Char) :
    ∀ (l : List (Nat × Nat)) (best : Nat × Nat × Nat),
      best.2.2 ≤ (bestMatchGo a b l best).2.2 ∧
      ∀ p ∈ l, commonLen (a.drop p.1) (b.drop p.2) ≤ (bestMatchGo a b l best).2.2 := by
  intro l
  induction l with
  | nil => intro best; exact ⟨le_refl _, by simp⟩
  | cons p rest ih =>
    intro best
    obtain ⟨i, j⟩ := p
    simp only [bestMatchGo]
    constructor
    · split
      · rename_i hlt
        refine le_trans (le_of_lt hlt) ?_
        exact (ih (i, j, commonLen (a.drop i) (b.drop j))).1
      · exact (ih best).1
    · intro q hq
      rcases List.mem_cons.mp hq with h | h
      · subst h
        split
        · exact (ih (i, j, commonLen (a.drop i) (b.drop j))).1
        · rename_i hlt
          push_neg at hlt
          exact le_trans hlt (ih best).1
      · split
        · exact (ih _).2 q h
        · exact (ih best).2 q h

/-- Every block is at most the size recorded by `find_longest_match`. -/
theorem bestMatch_max (a b : List Char) (i j : Nat) :
    commonLen (a.drop i) (b.drop j) ≤ (bestMatch a b).2.2 := by
  by_cases hi : i < a.length
  · by_cases hj : j < b.length
    · refine (bestMatchGo_ge a b (pairList a b) (0, 0, 0)).2 (i, j) ?_
      simp only [pairList, List.mem_flatMap, List.mem_map, List.mem_range]
      exact ⟨i, hi, j, hj, rfl⟩
    · rw [show b.drop j = [] from List.drop_eq_nil_of_le (by omega), commonLen_nil_right]
      exact Nat.zero_le _
  · rw [show a.drop i = [] from List.drop_eq_nil_of_le (by omega), commonLen_nil_left]
    exact Nat.zero_le _

/-- `matchingSizeF` on two empty sequences is `0` for every fuel. -/
theorem matchingSizeF_nil : ∀ f : Nat, matchingSizeF f [] [] = 0
  | 0 => rfl
  | _ + 1 => rfl

/-- The total matching size is at most each sequence's length (whatever
the fuel). -/
theorem matchingSizeF_le :
    ∀ (f : Nat) (a b : List Char),
      matchingSizeF f a b ≤ a.length ∧ matchingSizeF f a b ≤ b.length := by
  intro f
  induction f with
  | zero => intro a b; simp [matchingSizeF]
  | succ f ih =>
    intro a b
    simp only [matchingSizeF]
    split
    · simp
    · rename_i hk
      obtain ⟨h1, h2⟩ := bestMatch_bounds a b
      obtain ⟨l1, l2⟩ := ih (a.take (bestMatch a b).1) (b.take (bestMatch a b).2.1)
      obtain ⟨r1, r2⟩ :=
        ih (a.drop ((bestMatch a b).1 + (bestMatch a b).2.2))
          (b.drop ((bestMatch a b).2.1 + (bestMatch a b).2.2))
      simp only [List.length_take, List.length_drop] at l1 l2 r1 r2
      omega

theorem matchingSize_le_left (a b : List Char) : matchingSize a b ≤ a.length :=
  (matchingSizeF_le _ a b).1

theorem matchingSize_le_right (a b : List Char) : matchingSize a b ≤ b.length :=
  (matchingSizeF_le _ a b).2

/-- On a sequence against itself the longest block is the whole sequence. -/
theorem bestMatch_self (x : List Char) : bestMatch x x = (0, 0, x.length) := by
  have hmax := bestMatch_max x x 0 0
  rw [List.drop_zero, commonLen_self] at hmax
  obtain ⟨h1, h2⟩ := bestMatch_bounds x x
  rcases hbm : bestMatch x x with ⟨i, j, k⟩
  rw [hbm] at hmax h1 h2
  simp only at hmax h1 h2
  have : i = 0 ∧ j = 0 ∧ k = x.length := by omega
  simp [this.1, this.2.1, this.2.2]

/-- The matching blocks of a sequence against itself cover it entirely. -/
theorem matchingSize_self (x : List Char) : matchingSize x x = x.length := by
  cases x with
  | nil => rfl
  | cons c cs =>
    show matchingSizeF ((c :: cs).length + (c :: cs).length) (c :: cs) (c :: cs) = _
    have hlen : (c :: cs).length + (c :: cs).length = (cs.length + 1 + cs.length) + 1 := by
      simp; omega
    rw [hlen]
    simp only [matchingSizeF, bestMatch_self]
    have hne : (c :: cs).length ≠ 0 := by simp
    simp only [hne, if_false, List.take_zero, List.drop_length, Nat.zero_add,
      matchingSizeF_nil]
    omega

/-- A sequence is fully similar to itself. -/
theorem pyRatio_self (x : List Char) : pyRatio x x = 1 := by
  unfold pyRatio
  split
  · rfl
  · rename_i h
    rw [matchingSize_self]
    have hpos : (0 : ℚ) < (x.length : ℚ) + (x.length : ℚ) := by
      have : (0 : ℚ) < ((x.length + x.length : Nat) : ℚ) := by
        exact_mod_cast Nat.pos_of_ne_zero h
      push_cast at this
      linarith
    rw [div_eq_one_iff_eq (ne_of_gt hpos)]
    ring

/-- No pair of sequences is more than fully similar. -/
theorem pyRatio_le_one (a b : List Char) : pyRatio a b ≤ 1 := by
  unfold pyRatio
  split
  · exact le_refl _
  · rename_i h
    have hpos : (0 : ℚ) < (a.length : ℚ) + (b.length : ℚ) := by
      have : (0 : ℚ) < ((a.length + b.length : Nat) : ℚ) := by
        exact_mod_cast Nat.pos_of_ne_zero h
      push_cast at this
      linarith
    rw [div_le_one hpos]
    have h1 := matchingSize_le_left a b
    have h2 := matchingSize_le_right a b
    have : 2 * matchingSize a b ≤ a.length + b.length := by omega
    exact_mod_cast this

theorem ratioPair_den_pos (a b : List Char) : 0 < (ratioPair a b).2 := by
  unfold ratioPair
  split
  · exact Nat.one_pos
  · rename_i h
    simpa using Nat.pos_of_ne_zero h

theorem pyRatio_eq_pair (a b : List Char) :
    pyRatio a b = ((ratioPair a b).1 : ℚ) / ((ratioPair a b).2 : ℚ) := by
  unfold pyRatio ratioPair
  split
  · norm_num
  · push_cast
    rfl

/-- The executable cutoff test is the exact rational test. -/
theorem geCutoff_iff (a b : List Char) :
    ratioGeCutoffB a b = true ↔ pyRatio a b ≥ 2 / 5 := by
  have hd : (0 : ℚ) < ((ratioPair a b).2 : ℚ) := by exact_mod_cast ratioPair_den_pos a b
  constructor
  · intro h
    have hh : 5 * (ratioPair a b).1 ≥ 2 * (ratioPair a b).2 := by
      unfold ratioGeCutoffB at h
      exact of_decide_eq_true h
    rw [pyRatio_eq_pair, ge_iff_le, div_le_div_iff₀ (by norm_num : (0 : ℚ) < 5) hd]
    have h' : 2 * (ratioPair a b).2 ≤ (ratioPair a b).1 * 5 := by omega
    exact_mod_cast h'
  · intro h
    rw [pyRatio_eq_pair, ge_iff_le, div_le_div_iff₀ (by norm_num : (0 : ℚ) < 5) hd] at h
    have h' : 2 * (ratioPair a b).2 ≤ (ratioPair a b).1 * 5 := by exact_mod_cast h
    unfold ratioGeCutoffB
    exact decide_eq_true (by omega)

/-- The executable strict comparison is the exact rational comparison. -/
theorem ltB_iff (a b w : List Char) :
    ratioLtB a b w = true ↔ pyRatio a w < pyRatio b w := by
  have hda : (0 : ℚ) < ((ratioPair a w).2 : ℚ) := by exact_mod_cast ratioPair_den_pos a w
  have hdb : (0 : ℚ) < ((ratioPair b w).2 : ℚ) := by exact_mod_cast ratioPair_den_pos b w
  unfold ratioLtB
  rw [decide_eq_true_eq, pyRatio_eq_pair, pyRatio_eq_pair, div_lt_div_iff₀ hda hdb]
  constructor
  · intro h; exact_mod_cast h
  · intro h; exact_mod_cast h

/-- The executable equality test is the exact rational equality. -/
theorem eqB_iff (a b w : List Char) :
    ratioEqB a b w = true ↔ pyRatio a w = pyRatio b w := by
  have hda : (0 : ℚ) < ((ratioPair a w).2 : ℚ) := by exact_mod_cast ratioPair_den_pos a w
  have hdb : (0 : ℚ) < ((ratioPair b w).2 : ℚ) := by exact_mod_cast ratioPair_den_pos b w
  unfold ratioEqB
  rw [decide_eq_true_eq, pyRatio_eq_pair, pyRatio_eq_pair,
    div_eq_div_iff (ne_of_gt hda) (ne_of_gt hdb)]
  constructor
  · intro h; exact_mod_cast h
  · intro h; exact_mod_cast h

/-- If the fold of `get_close_matches` returns nothing, it started with
nothing and no candidate reached the cutoff. -/
theorem gcmGo_none (word : List Char) :
    ∀ (l : List (List Char)) (best : Option (List Char)),
      getCloseMatches1Go word l best = none →
      best = none ∧ ∀ y ∈ l, pyRatio y word < 2 / 5 := by
  intro l
  induction l with
  | nil => intro best h; exact ⟨h, by simp⟩
  | cons x rest ih =>
    intro best h
    rcases best with _ | b
    · simp only [getCloseMatches1Go] at h
      split at h
      · obtain ⟨hc, -⟩ := ih _ h
        exact absurd hc (by simp)
      · rename_i hx
        obtain ⟨-, h2⟩ := ih _ h
        refine ⟨rfl, fun y hy => ?_⟩
        rcases List.mem_cons.mp hy with rfl | hmem
        · exact lt_of_not_le fun hge => hx ((geCutoff_iff y word).mpr hge)
        · exact h2 y hmem
    · simp only [getCloseMatches1Go] at h
      split at h
      · split at h
        · obtain ⟨hc, -⟩ := ih _ h
          exact absurd hc (by simp)
        · obtain ⟨hc, -⟩ := ih _ h
          exact absurd hc (by simp)
      · obtain ⟨hc, -⟩ := ih _ h
        exact absurd hc (by simp)

/-- If the fold of `get_close_matches` returns a candidate, that candidate
reached the cutoff and its ratio is maximal among the list's candidates
and the starting value. -/
theorem gcmGo_some (word : List Char) :
    ∀ (l : List (List Char)) (best : Option (List Char)) (r : List Char),
      (∀ b, best = some b → pyRatio b word ≥ 2 / 5) →
      getCloseMatches1Go word l best = some r →
      pyRatio r word ≥ 2 / 5 ∧ (r ∈ l ∨ best = some r) ∧
        (∀ y ∈ l, pyRatio y word ≤ pyRatio r word) ∧
        (∀ b, best = some b → pyRatio b word ≤ pyRatio r word) := by
  intro l
  induction l with
  | nil =>
    intro best r hbest h
    simp only [getCloseMatches1Go] at h
    refine ⟨hbest r h, Or.inr h, by simp, fun b hb => ?_⟩
    rw [h] at hb
    cases hb
    exact le_refl _
  | cons x rest ih =>
    intro best r hbest h
    rcases best with _ | b
    · simp only [getCloseMatches1Go] at h
      split at h
      · rename_i hx
        have hxr : pyRatio x word ≥ 2 / 5 := (geCutoff_iff x word).mp hx
        obtain ⟨h1, h2, h3, h4⟩ := ih (some x) r (fun b hb => by cases hb; exact hxr) h
        refine ⟨h1, ?_, fun y hy => ?_, by simp⟩
        · rcases h2 with hm | he
          · exact Or.inl (List.mem_cons_of_mem _ hm)
          · cases he
            exact Or.inl (List.mem_cons_self _ _)
        · rcases List.mem_cons.mp hy with rfl | hmem
          · exact h4 y rfl
          · exact h3 y hmem
      · rename_i hx
        obtain ⟨h1, h2, h3, -⟩ := ih none r (by simp) h
        refine ⟨h1, ?_, fun y hy => ?_, by simp⟩
        · rcases h2 with hm | he
          · exact Or.inl (List.mem_cons_of_mem _ hm)
          · exact absurd he (by simp)
        · rcases List.mem_cons.mp hy with rfl | hmem
          · exact le_trans
              (le_of_lt (lt_of_not_le fun hge => hx ((geCutoff_iff y word).mpr hge))) h1
          · exact h3 y hmem
    · simp only [getCloseMatches1Go] at h
      split at h
      · rename_i hx
        have hxr : pyRatio x word ≥ 2 / 5 := (geCutoff_iff x word).mp hx
        split at h
        · rename_i hcmp
          obtain ⟨h1, h2, h3, h4⟩ := ih (some x) r (fun b' hb' => by cases hb'; exact hxr) h
          have hbx : pyRatio b word ≤ pyRatio x word := by
            have hcmp' : ratioLtB b x word = true ∨
                (ratioEqB b x word = true ∧ pyStrLt b x = true) := by simpa using hcmp
            rcases hcmp' with hlt | ⟨heq, -⟩
            · exact le_of_lt ((ltB_iff b x word).mp hlt)
            · exact le_of_eq ((eqB_iff b x word).mp heq)
          refine ⟨h1, ?_, fun y hy => ?_, ?_⟩
          · rcases h2 with hm | he
            · exact Or.inl (List.mem_cons_of_mem _ hm)
            · cases he
              exact Or.inl (List.mem_cons_self _ _)
          · rcases List.mem_cons.mp hy with rfl | hmem
            · exact h4 y rfl
            · exact h3 y hmem
          · intro b' hb'
            cases hb'
            exact le_trans hbx (h4 x rfl)
        · rename_i hcmp
          have hxb : pyRatio x word ≤ pyRatio b word :=
            le_of_not_lt fun hlt => hcmp (by simp [(ltB_iff b x word).mpr hlt])
          obtain ⟨h1, h2, h3, h4⟩ := ih (some b) r
            (fun b' hb' => by cases hb'; exact hbest b rfl) h
          refine ⟨h1, ?_, fun y hy => ?_, ?_⟩
          · rcases h2 with hm | he
            · exact Or.inl (List.mem_cons_of_mem _ hm)
            · exact Or.inr he
          · rcases List.mem_cons.mp hy with rfl | hmem
            · exact le_trans hxb (h4 b rfl)
            · exact h3 y hmem
          · intro b' hb'
            cases hb'
            exact h4 b rfl
      · rename_i hx
        obtain ⟨h1, h2, h3, h4⟩ := ih (some b) r hbest h
        refine ⟨h1, ?_, fun y hy => ?_, h4⟩
        · rcases h2 with hm | he
          · exact Or.inl (List.mem_cons_of_mem _ hm)
          · exact Or.inr he
        · rcases List.mem_cons.mp hy with rfl | hmem
          · exact le_trans
              (le_of_lt (lt_of_not_le fun hge => hx ((geCutoff_iff y word).mpr hge))) h1
          · exact h3 y hmem

/-! ## Lemmas about the seeded tables -/

theorem findPos_some_get {p : α → Bool} :
    ∀ {l : List α} {n : Nat}, findPos p l = some n → ∃ x, l.get? n = some x ∧ p x = true := by
  intro l
  induction l with
  | nil => intro n h; simp [findPos] at h
  | cons x xs ih =>
    intro n h
    simp only [findPos] at h
    split at h
    · rename_i hp
      cases h
      exact ⟨x, rfl, hp⟩
    · rcases hfp : findPos p xs with _ | m
      · rw [hfp] at h; simp at h
      · rw [hfp] at h
        simp only [Option.map_some'] at h
        cases h
        obtain ⟨y, hy, hpy⟩ := ih hfp
        exact ⟨y, hy, hpy⟩

theorem findPos_some_mem {p : α → Bool} {l : List α} {n : Nat}
    (h : findPos p l = some n) : ∃ x ∈ l, p x = true := by
  obtain ⟨x, hx, hpx⟩ := findPos_some_get h
  exact ⟨x, List.get?_mem hx, hpx⟩

theorem findPos_isSome_of_mem {p : α → Bool} :
    ∀ {l : List α} {x : α}, x ∈ l → p x = true → (findPos p l).isSome := by
  intro l
  induction l with
  | nil => intro x h; simp at h
  | cons y ys ih =>
    intro x hmem hp
    simp only [findPos]
    split
    · rfl
    · rename_i hpy
      rcases List.mem_cons.mp hmem with rfl | hmem'
      · exact absurd hp (by simp [hpy])
      · have := ih hmem' hp
        rcases hfp : findPos p ys with _ | m
        · rw [hfp] at this; simp at this
        · simp [hfp]

theorem findPos_eq_none {p : α → Bool} :
    ∀ {l : List α}, (∀ x ∈ l, p x = false) → findPos p l = none := by
  intro l
  induction l with
  | nil => intro _; rfl
  | cons y ys ih =>
    intro h
    simp only [findPos]
    rw [h y (List.mem_cons_self _ _)]
    simp only [Bool.false_eq_true, if_false]
    rw [ih fun x hx => h x (List.mem_cons_of_mem _ hx)]
    rfl

/-- A valid main category name (a key of `valid_categories`). -/
def isValidMainCat (cat : String) : Bool :=
  (validCategories.find? fun p => p.1 = cat).isSome

/-- An invalid main category has no row in `main_categories` and no
subcategory list. -/
theorem invalid_cat_lookup {cat : String} (h : isValidMainCat cat = false) :
    mainIdOf cat = none ∧ subcatsOf cat = [] := by
  have hf : validCategories.find? (fun p => p.1 = cat) = none := by
    unfold isValidMainCat at h
    rcases hf : validCategories.find? fun p => p.1 = cat with _ | p
    · exact hf
    · rw [hf] at h; simp at h
  have hall := List.find?_eq_none.mp hf
  constructor
  · unfold mainIdOf
    rw [findPos_eq_none]
    · rfl
    · intro x hx
      unfold mainCategories at hx
      obtain ⟨p, hp, rfl⟩ := List.mem_map.mp hx
      have := hall p hp
      simpa using this
  · unfold subcatsOf
    rw [hf]
    rfl

/-- A valid main category has a row in `main_categories`, and its
subcategory list is the entry found in `valid_categories`. -/
theorem valid_cat_lookup {cat : String} (h : isValidMainCat cat = true) :
    (∃ m, mainIdOf cat = some m) ∧ (cat, subcatsOf cat) ∈ validCategories := by
  unfold isValidMainCat at h
  rcases hf : validCategories.find? fun p => p.1 = cat with _ | p
  · rw [hf] at h; simp at h
  · obtain ⟨c, ss⟩ := p
    have hpmem := List.mem_of_find?_eq_some hf
    have hpcat : c = cat := by
      have := List.find?_some hf
      simpa using this
    subst hpcat
    have hcatmem : c ∈ mainCategories := by
      unfold mainCategories
      exact List.mem_map.mpr ⟨(c, ss), hpmem, rfl⟩
    constructor
    · have := findPos_isSome_of_mem (p := fun n => n = c) hcatmem (by simp)
      rcases hfp : findPos (fun n => n = c) mainCategories with _ | m
      · rw [hfp] at this; simp at this
      · exact ⟨m + 1, by unfold mainIdOf; rw [hfp]; rfl⟩
    · unfold subcatsOf
      rw [hf]
      simpa using hpmem

/-- The name a `main_categories` id resolves back to. -/
theorem mainIdOf_get {cat : String} {m : Nat} (h : mainIdOf cat = some m) :
    mainCategories.get? (m - 1) = some cat := by
  unfold mainIdOf at h
  rcases hfp : findPos (fun n => n = cat) mainCategories with _ | n
  · rw [hfp] at h; simp at h
  · rw [hfp] at h
    simp only [Option.map_some'] at h
    cases h
    obtain ⟨x, hx, hpx⟩ := findPos_some_get hfp
    have : x = cat := by simpa using hpx
    simpa [this] using hx

/-- A found sub-category row is a row of the table. -/
theorem subIdOf_mem {m : Nat} {s : String} {k : Nat} (h : subIdOf m s = some k) :
    (m, s) ∈ subCategories := by
  unfold subIdOf at h
  rcases hfp : findPos (fun e => e.1 = m ∧ e.2 = s) subCategories with _ | n
  · rw [hfp] at h; simp at h
  · obtain ⟨x, hx, hpx⟩ := findPos_some_mem hfp
    have : x = (m, s) := by
      have := of_decide_eq_true hpx
      obtain ⟨h1, h2⟩ := this
      cases x
      simp_all
    exact this ▸ hx

/-- Every row of the seeded `sub_categories` table lists, under the name
its main id resolves to, a subcategory of that category (checked over the
finite table). -/
theorem subCategories_consistent :
    ∀ e ∈ subCategories,
      ∃ c, mainCategories.get? (e.1 - 1) = some c ∧ e.2 ∈ subcatsOf c := by
  have hall : subCategories.all
      (fun e =>
        match mainCategories.get? (e.1 - 1) with
        | some c => (subcatsOf c).contains e.2
        | none => false) = true := by decide
  intro e he
  have := (List.all_eq_true.mp hall) e he
  rcases hg : mainCategories.get? (e.1 - 1) with _ | c
  · rw [hg] at this; simp at this
  · rw [hg] at this
    simp only at this
    exact ⟨c, rfl, by simpa using this⟩

/-- Every `(category, subcategory)` pair of the seeded taxonomy resolves
to ids through `_get_category_ids` (checked over the finite table). -/
theorem taxonomy_pairs_resolve :
    ∀ p ∈ validCategories, ∀ s ∈ p.2,
      ∃ m k, getCategoryIds p.1 s = (some m, some k) := by
  have hall : validCategories.all
      (fun p => p.2.all fun s =>
        (getCategoryIds p.1 s).1.isSome && (getCategoryIds p.1 s).2.isSome) = true := by
    decide
  intro p hp s hs
  have h1 := List.all_eq_true.mp (List.all_eq_true.mp hall p hp) s hs
  have h1' : (getCategoryIds p.1 s).1.isSome = true ∧
      (getCategoryIds p.1 s).2.isSome = true := by simpa using h1
  obtain ⟨ha, hb⟩ := h1'
  rcases hg : getCategoryIds p.1 s with ⟨m0, s0⟩
  rw [hg] at ha hb
  rcases m0 with _ | m
  · simp at ha
  · rcases s0 with _ | k
    · simp at hb
    · exact ⟨m, k, rfl⟩

/-- A successful exact lookup certifies taxonomy membership. -/
theorem getCategoryIds_some_mem {cat sub : String} {m k : Nat}
    (h : getCategoryIds cat sub = (some m, some k)) : sub ∈ subcatsOf cat := by
  unfold getCategoryIds at h
  rcases hm : mainIdOf cat with _ | m'
  · rw [hm] at h; simp at h
  · rw [hm] at h
    simp only [Prod.mk.injEq, Option.some.injEq] at h
    obtain ⟨rfl, hs⟩ := h
    have hmem := subIdOf_mem hs
    obtain ⟨c, hc, hcs⟩ := subCategories_consistent (m', sub) hmem
    have hcat := mainIdOf_get hm
    simp only at hc
    rw [hcat] at hc
    cases hc
    exact hcs

/-- When the subcategory is not under the (valid) category, the exact
lookup yields the main id but no sub id. -/
theorem getCategoryIds_notmem {cat sub : String} {m : Nat}
    (hm : mainIdOf cat = some m) (hsub : sub ∉ subcatsOf cat) :
    getCategoryIds cat sub = (some m, none) := by
  have hred : getCategoryIds cat sub = (some m, subIdOf m sub) := by
    unfold getCategoryIds
    rw [hm]
  rcases hs : subIdOf m sub with _ | k
  · rw [hred, hs]
  · exfalso
    exact hsub (getCategoryIds_some_mem
      (show getCategoryIds cat sub = (some m, some k) by rw [hred, hs]))

/-- C2: during persistence, for an item under a valid category, a
subcategory string whose similarity to some listed subcategory reaches the
0.4 cutoff resolves to a closest such subcategory's identifiers, a string
reaching no candidate fails, and an invalid category always fails with no
fuzzy fallback. -/
theorem claim_C2_resolution (cat sub : String) :
    (isValidMainCat cat = false → resolveIds cat sub = none) ∧
    (isValidMainCat cat = true →
      ((∃ s ∈ subcatsOf cat, pyRatio s.data sub.data ≥ 2 / 5) →
        ∃ best ∈ subcatsOf cat,
          pyRatio best.data sub.data ≥ 2 / 5 ∧
          (∀ y ∈ subcatsOf cat, pyRatio y.data sub.data ≤ pyRatio best.data sub.data) ∧
          ∃ m k, getCategoryIds cat best = (some m, some k) ∧
            resolveIds cat sub = some (m, k)) ∧
      ((∀ s ∈ subcatsOf cat, pyRatio s.data sub.data < 2 / 5) →
        resolveIds cat sub = none)) := by
  constructor
  · intro h
    obtain ⟨hmain, hsubs⟩ := invalid_cat_lookup h
    have hg : getCategoryIds cat sub = (none, none) := by
      unfold getCategoryIds; rw [hmain]
    unfold resolveIds
    rw [hg, hsubs]
    simp [getCloseMatches1, getCloseMatches1Go]
  · intro hvalid
    obtain ⟨⟨m, hm⟩, hmem⟩ := valid_cat_lookup hvalid
    constructor
    · rintro ⟨s0, hs0mem, hs0r⟩
      by_cases hsub : sub ∈ subcatsOf cat
      · obtain ⟨m', k, hg0⟩ := taxonomy_pairs_resolve (cat, subcatsOf cat) hmem sub hsub
        have hg : getCategoryIds cat sub = (some m', some k) := hg0
        refine ⟨sub, hsub, ?_, ?_, m', k, hg, ?_⟩
        · rw [pyRatio_self]; norm_num
        · intro y hy
          rw [pyRatio_self]
          exact pyRatio_le_one _ _
        · unfold resolveIds
          rw [hg]
      · have hgnone := getCategoryIds_notmem hm hsub
        rcases hgo : getCloseMatches1 sub.data ((subcatsOf cat).map String.data)
          with _ | r
        · exfalso
          have hgo' : getCloseMatches1Go sub.data
              ((subcatsOf cat).map String.data) none = none := hgo
          obtain ⟨-, hall⟩ := gcmGo_none sub.data _ none hgo'
          have := hall s0.data (List.mem_map.mpr ⟨s0, hs0mem, rfl⟩)
          exact absurd hs0r (not_le_of_lt this)
        · have hgo' : getCloseMatches1Go sub.data
              ((subcatsOf cat).map String.data) none = some r := hgo
          obtain ⟨h1, h2, h3, -⟩ := gcmGo_some sub.data _ none r (by simp) hgo'
          have hrmem : r ∈ (subcatsOf cat).map String.data := by
            rcases h2 with hm2 | he
            · exact hm2
            · exact absurd he (by simp)
          obtain ⟨bs, hbsmem, hbseq⟩ := List.mem_map.mp hrmem
          obtain ⟨m', k, hg0⟩ := taxonomy_pairs_resolve (cat, subcatsOf cat) hmem bs hbsmem
          have hg : getCategoryIds cat bs = (some m', some k) := hg0
          refine ⟨bs, hbsmem, ?_, ?_, m', k, hg, ?_⟩
          · rw [hbseq]; exact h1
          · intro y hy
            rw [hbseq]
            exact h3 y.data (List.mem_map.mpr ⟨y, hy, rfl⟩)
          · unfold resolveIds
            rw [hgnone]
            show (match getCloseMatches1 sub.data ((subcatsOf cat).map String.data) with
              | some best =>
                match getCategoryIds cat (String.mk best) with
                | (some m, some s) => some (m, s)
                | _ => none
              | none => none) = some (m', k)
            rw [hgo, ← hbseq]
            show (match getCategoryIds cat (String.mk bs.data) with
              | (some m, some s) => some (m, s)
              | _ => none) = some (m', k)
            rw [show String.mk bs.data = bs from rfl, hg]
    · intro hall
      by_cases hsub : sub ∈ subcatsOf cat
      · exfalso
        have := hall sub hsub
        rw [pyRatio_self] at this
        norm_num at this
      · have hgnone := getCategoryIds_notmem hm hsub
        rcases hgo : getCloseMatches1 sub.data ((subcatsOf cat).map String.data)
          with _ | r
        · unfold resolveIds
          rw [hgnone]
          show (match getCloseMatches1 sub.data ((subcatsOf cat).map String.data) with
            | some best =>
              match getCategoryIds cat (String.mk best) with
              | (some m, some s) => some (m, s)
              | _ => none
            | none => none) = none
          rw [hgo]
        · exfalso
          have hgo' : getCloseMatches1Go sub.data
              ((subcatsOf cat).map String.data) none = some r := hgo
          obtain ⟨h1, h2, -, -⟩ := gcmGo_some sub.data _ none r (by simp) hgo'
          have hrmem : r ∈ (subcatsOf cat).map String.data := by
            rcases h2 with hm2 | he
            · exact hm2
            · exact absurd he (by simp)
          obtain ⟨bs, hbsmem, hbseq⟩ := List.mem_map.mp hrmem
          have := hall bs hbsmem
          rw [hbseq] at this
          exact absurd h1 (not_le_of_lt this)

/-- C2 witness: the category `음식` is valid and the draft subcategory
`음료수` fuzzily resolves to a closest valid subcategory's identifiers
(the listed `음료`, at ratio 4/5 ≥ 2/5). -/
theorem claim_C2_witness :
    isValidMainCat "음식" = true ∧
    (∃ best ∈ subcatsOf "음식",
      pyRatio best.data "음료수".data ≥ 2 / 5 ∧
      (∀ y ∈ subcatsOf "음식",
        pyRatio y.data "음료수".data ≤ pyRatio best.data "음료수".data) ∧
      ∃ m k, getCategoryIds "음식" best = (some m, some k) ∧
        resolveIds "음식" "음료수" = some (m, k)) :=
  ⟨by decide,
    ((claim_C2_resolution "음식" "음료수").2 (by decide)).1
      ⟨"음료", by decide, (geCutoff_iff "음료".data "음료수".data).mp (by decide)⟩⟩

/-! ## Claim C1 — the parser's validation against the seeded taxonomy -/

/-- C1 counterexample: `(의료, 약품)` is a pair of the fixed seeded
taxonomy, yet the parser's validation rejects it (its own map has no
`의료` key). -/
theorem claim_C1_counterexample :
    ("의료", ["약품", "진료"]) ∈ validCategories ∧ "약품" ∈ ["약품", "진료"] ∧
    isValidCategory "의료" "약품" = false := by decide

/-- C1 amended: `_is_valid_category` accepts every pair of the seeded
taxonomy whose main category also appears in the parser's own
five-category map; pairs under the other four seeded categories are
rejected. -/
theorem claim_C1_amended (c : String) (ss : List String) (s : String)
    (hc : (c, ss) ∈ validCategories) (hs : s ∈ ss)
    (hp : c ∈ parserValidCategories.map Prod.fst) :
    isValidCategory c s = true := by
  have hall : validCategories.all (fun p =>
      !(decide (p.1 ∈ parserValidCategories.map Prod.fst)) ||
        p.2.all fun s => isValidCategory p.1 s) = true := by decide
  have h1 := List.all_eq_true.mp hall (c, ss) hc
  have hd : decide (c ∈ parserValidCategories.map Prod.fst) = true := decide_eq_true hp
  simp only [hd, Bool.not_true, Bool.false_or] at h1
  exact List.all_eq_true.mp h1 s hs

/-- C1 witness: the taxonomy pair `(음식, 음료)` is accepted by the
parser's validation. -/
theorem claim_C1_witness : isValidCategory "음식" "음료" = true :=
  claim_C1_amended "음식" ["아침", "점심", "저녁", "간식", "음료", "과일", "디저트", "유제품"]
    "음료" (by decide) (by decide) (by decide)

/-! ## Claims C3 and C4 — `add_receipt` -/

/-- The item rows the loop of `add_receipt`/`update_receipt` inserts for a
list of resolvable items. -/
def resolvedRows (rid : Nat) (items : List ItemIn) : List ItemRow :=
  items.filterMap fun it =>
    (resolveIds it.category it.subcategory).map fun p =>
      ⟨rid, it.name, p.1, p.2, it.amount⟩

/-- `insertItems` on a fully resolvable list appends exactly its rows and
succeeds. -/
theorem insertItems_all_resolved (rid : Nat) :
    ∀ (items : List ItemIn) (db : DB),
      (∀ it ∈ items, (resolveIds it.category it.subcategory).isSome) →
      insertItems db rid items =
        ({ db with items := db.items ++ resolvedRows rid items }, true) := by
  intro items
  induction items with
  | nil => intro db _; simp [insertItems, resolvedRows]
  | cons it rest ih =>
    intro db hres
    have hit := hres it (List.mem_cons_self _ _)
    rcases hr : resolveIds it.category it.subcategory with _ | p
    · rw [hr] at hit; simp at hit
    · obtain ⟨m, s⟩ := p
      simp only [insertItems, hr]
      rw [ih _ fun x hx => hres x (List.mem_cons_of_mem _ hx)]
      simp [resolvedRows, hr, List.filterMap_cons]

/-- `insertItems` stops at the first unresolvable item, keeping the rows
inserted before it, and touches nothing but the `items` table. -/
theorem insertItems_aborts (rid : Nat) :
    ∀ (pre : List ItemIn) (bad : ItemIn) (rest : List ItemIn) (db : DB),
      (∀ it ∈ pre, (resolveIds it.category it.subcategory).isSome) →
      resolveIds bad.category bad.subcategory = none →
      insertItems db rid (pre ++ bad :: rest) =
        ({ db with items := db.items ++ resolvedRows rid pre }, false) := by
  intro pre
  induction pre with
  | nil =>
    intro bad rest db _ hbad
    simp [insertItems, hbad, resolvedRows]
  | cons it pre' ih =>
    intro bad rest db hres hbad
    have hit := hres it (List.mem_cons_self _ _)
    rcases hr : resolveIds it.category it.subcategory with _ | p
    · rw [hr] at hit; simp at hit
    · obtain ⟨m, s⟩ := p
      show insertItems db rid (it :: (pre' ++ bad :: rest)) = _
      simp only [insertItems, hr]
      have hstep := ih bad rest
        { db with items := db.items ++ [⟨rid, it.name, m, s, it.amount⟩] }
        (fun x hx => hres x (List.mem_cons_of_mem _ hx)) hbad
      rw [hstep]
      simp [resolvedRows, hr, List.filterMap_cons]

/-- C3: an `add` whose item list contains an unresolvable item returns
failure, inserts no item at or after the first unresolvable one, and
leaves the receipt row and the items inserted before the failure in the
store (the `with` block commits on the early `return None`). -/
theorem claim_C3_abort (db : DB) (store date : String) (total : Int)
    (pre : List ItemIn) (bad : ItemIn) (rest : List ItemIn)
    (hres : ∀ it ∈ pre, (resolveIds it.category it.subcategory).isSome)
    (hbad : resolveIds bad.category bad.subcategory = none) :
    (addReceipt db store date (pre ++ bad :: rest) total).2 = none ∧
    (addReceipt db store date (pre ++ bad :: rest) total).1.receipts =
      db.receipts ++ [⟨db.nextReceiptId, store, date, total⟩] ∧
    (addReceipt db store date (pre ++ bad :: rest) total).1.items =
      db.items ++ resolvedRows db.nextReceiptId pre := by
  simp only [addReceipt]
  rw [insertItems_aborts db.nextReceiptId pre bad rest _ hres hbad]
  simp

/-- C3 witness: adding `[간식 item, (쇼핑, 전자제품) item, 의류 item]` to
the empty store fails, keeps the receipt row, and persists exactly the one
row of the resolvable prefix. -/
theorem claim_C3_witness :
    (∀ it ∈ [(⟨"과자", "음식", "간식", 1000⟩ : ItemIn)],
      (resolveIds it.category it.subcategory).isSome) ∧
    resolveIds "쇼핑" "전자제품" = none ∧
    (addReceipt DB.init "마트" "2024-05-01"
      [⟨"과자", "음식", "간식", 1000⟩, ⟨"노트북", "쇼핑", "전자제품", 900000⟩,
        ⟨"티셔츠", "쇼핑", "의류", 15000⟩] 916000).2 = none ∧
    (addReceipt DB.init "마트" "2024-05-01"
      [⟨"과자", "음식", "간식", 1000⟩, ⟨"노트북", "쇼핑", "전자제품", 900000⟩,
        ⟨"티셔츠", "쇼핑", "의류", 15000⟩] 916000).1.items =
      [⟨1, "과자", 6, 26, 1000⟩] := by
  refine ⟨?_, ?_, ?_⟩
  · decide
  · decide
  · have h := claim_C3_abort DB.init "마트" "2024-05-01" 916000
      [⟨"과자", "음식", "간식", 1000⟩] ⟨"노트북", "쇼핑", "전자제품", 900000⟩
      [⟨"티셔츠", "쇼핑", "의류", 15000⟩] (by decide) (by decide)
    have h3 : (addReceipt DB.init "마트" "2024-05-01"
        [⟨"과자", "음식", "간식", 1000⟩, ⟨"노트북", "쇼핑", "전자제품", 900000⟩,
          ⟨"티셔츠", "쇼핑", "의류", 15000⟩] 916000).1.items =
        DB.init.items ++
          resolvedRows DB.init.nextReceiptId [⟨"과자", "음식", "간식", 1000⟩] := h.2.2
    exact ⟨h.1, by rw [h3]; decide⟩

/-- C4 (code bug): a fully-resolved `add` succeeds and persists exactly
its one item, but the subsequent `get_receipts` read returns `[]` — its
query names the columns `category`/`subcategory`, absent from the
`receipts` schema, so sqlite raises and the handler swallows the error —
instead of returning the added receipt. -/
theorem claim_C4_read_bug :
    (addReceipt DB.init "스타벅스" "2024-03-15"
      [⟨"아메리카노", "음식", "음료", 4500⟩] 4500).2 = some 1 ∧
    ((addReceipt DB.init "스타벅스" "2024-03-15"
      [⟨"아메리카노", "음식", "음료", 4500⟩] 4500).1.items.filter
        fun it => it.receipt_id = 1).length = 1 ∧
    getReceiptsQueryCols.all (fun c => receiptsTableCols.contains c) = false ∧
    getReceipts (addReceipt DB.init "스타벅스" "2024-03-15"
      [⟨"아메리카노", "음식", "음료", 4500⟩] 4500).1 = [] := by
  decide

/-- C6 (code bug): `get_expense_trends` never returns a trend series —
its query sums the column `amount` of `receipts` (and filters on
`category`), columns the table does not have, so every call errors out
and returns `None`. -/
theorem claim_C6_trends_bug :
    ((trendsQueryCols none).all fun c => receiptsTableCols.contains c) = false ∧
    ((trendsQueryCols (some "음식")).all fun c => receiptsTableCols.contains c) = false ∧
    ∀ (db : DB) (category : Option String) (period : String),
      getExpenseTrends db category period = none := by
  exact ⟨by decide, by decide, fun _ _ _ => rfl⟩

/-- The store after adding the two receipts of the C7 scenario: dated
`2024-03-01` and `2024-03-20`, each with a single item of 10000 and 5000
under `음식`/`음료`. -/
def statsDemoDB : DB :=
  (addReceipt
    (addReceipt DB.init "가게A" "2024-03-01" [⟨"품목1", "음식", "음료", 10000⟩] 10000).1
    "가게B" "2024-03-20" [⟨"품목2", "음식", "음료", 5000⟩] 5000).1

/-- C7: on the two-receipt store, `get_statistics('monthly')` groups by
(period, main category, subcategory) and returns the single period key
`2024-03` with total 15000, the `음식` roll-up 15000, and the `음료` leaf
`{count 2, total 15000}`. -/
theorem claim_C7_monthly_stats :
    statsDemoDB.receipts.length = 2 ∧
    statsDemoDB.receipts.map ReceiptRow.date = ["2024-03-01", "2024-03-20"] ∧
    (getStatistics statsDemoDB "monthly").map Prod.fst = ["2024-03"] ∧
    getStatistics statsDemoDB "monthly" =
      [("2024-03",
        { total_amount := 15000,
          categories := [("음식",
            { total_amount := 15000,
              subcategories := [("음료", { count := 2, total_amount := 15000 })] })] })] := by
  decide

/-- C10: a period argument outside `daily`/`monthly`/`yearly` falls back
to the `'%Y-%m'` format, so the statistics are those of `monthly` on the
same store, with no failure. -/
theorem claim_C10_period_fallback (period : String) (db : DB)
    (h1 : period ≠ "daily") (h2 : period ≠ "monthly") (h3 : period ≠ "yearly") :
    getStatistics db period = getStatistics db "monthly" := by
  have hf : dateFormatOf period = "%Y-%m" := by
    unfold dateFormatOf
    simp [h1, h2, h3]
  have hm : dateFormatOf "monthly" = "%Y-%m" := by rfl
  unfold getStatistics
  rw [hf, hm]

/-- C10 witness: `statistics('weekly')` equals `statistics('monthly')` on
the two-receipt store. -/
theorem claim_C10_witness :
    getStatistics statsDemoDB "weekly" = getStatistics statsDemoDB "monthly" :=
  claim_C10_period_fallback "weekly" statsDemoDB (by decide) (by decide) (by decide)

/-! ## Claim C8 — `update_receipt` on a missing id -/

/-- C8 counterexample: updating the nonexistent receipt id 1 of the empty
store with one resolvable item raises no error (returns `True`) — but it
is not free of effective row changes: it inserts an orphaned item row
referencing the missing id. -/
theorem claim_C8_counterexample :
    (∀ r ∈ DB.init.receipts, r.id ≠ 1) ∧
    (updateReceipt DB.init 1 "가게" "2024-01-01"
      [⟨"아메리카노", "음식", "음료", 1000⟩] 1000).2 = true ∧
    (updateReceipt DB.init 1 "가게" "2024-01-01"
      [⟨"아메리카노", "음식", "음료", 1000⟩] 1000).1.items =
      [⟨1, "아메리카노", 6, 27, 1000⟩] ∧
    DB.init.items = [] := by
  decide

/-- `insertItems` never touches the `receipts` table or the id counter,
and every row it appends carries the given receipt id. -/
theorem insertItems_shape (rid : Nat) :
    ∀ (items : List ItemIn) (db : DB),
      (insertItems db rid items).1.receipts = db.receipts ∧
      (insertItems db rid items).1.nextReceiptId = db.nextReceiptId ∧
      ∃ new, (insertItems db rid items).1.items = db.items ++ new ∧
        ∀ row ∈ new, row.receipt_id = rid := by
  intro items
  induction items with
  | nil => intro db; exact ⟨rfl, rfl, [], by simp [insertItems], by simp⟩
  | cons it rest ih =>
    intro db
    simp only [insertItems]
    rcases hr : resolveIds it.category it.subcategory with _ | p
    · simp only [hr]
      exact ⟨trivial, trivial, [], by simp, by simp⟩
    · obtain ⟨m, s⟩ := p
      obtain ⟨h1, h2, new, h3, h4⟩ :=
        ih { db with items := db.items ++ [⟨rid, it.name, m, s, it.amount⟩] }
      refine ⟨h1, h2, ⟨rid, it.name, m, s, it.amount⟩ :: new, ?_, ?_⟩
      · rw [h3]; simp
      · intro row hrow
        rcases List.mem_cons.mp hrow with rfl | hmem
        · rfl
        · exact h4 row hmem

/-- Mapping the scalar `UPDATE` over receipts none of which has the id is
the identity. -/
theorem map_update_miss (rid : Nat) (f : ReceiptRow → ReceiptRow) :
    ∀ (l : List ReceiptRow), (∀ r ∈ l, r.id ≠ rid) →
      (l.map fun r => if r.id = rid then f r else r) = l := by
  intro l
  induction l with
  | nil => intro _; rfl
  | cons r rest ih =>
    intro h
    simp only [List.map_cons]
    rw [if_neg (h r (List.mem_cons_self _ _)), ih fun x hx => h x (List.mem_cons_of_mem _ hx)]

/-- C8 amended: an `update` whose receipt id does not exist raises no
error and leaves the `receipts` table unchanged, but it is not free of
effective row changes in general: after deleting the (nonexistent)
receipt's items it still inserts the resolvable prefix of the argument
items as orphaned rows carrying the missing id — zero row changes hold
only when nothing is inserted or deleted. -/
theorem claim_C8_amended (db : DB) (rid : Nat) (store date : String)
    (items : List ItemIn) (total : Int)
    (hmiss : ∀ r ∈ db.receipts, r.id ≠ rid) :
    (updateReceipt db rid store date items total).1.receipts = db.receipts ∧
    ∃ new, (updateReceipt db rid store date items total).1.items =
      db.items.filter (fun it => it.receipt_id ≠ rid) ++ new ∧
      ∀ row ∈ new, row.receipt_id = rid := by
  simp only [updateReceipt]
  rw [map_update_miss rid _ db.receipts hmiss]
  obtain ⟨h1, -, new, h3, h4⟩ := insertItems_shape rid items
    { db with items := db.items.filter fun it => it.receipt_id ≠ rid }
  exact ⟨h1, new, h3, h4⟩

/-- C8 witness: the amended claim at the empty store and a nonexistent
id with an empty item list — the `receipts` table is unchanged and the
appended rows (none) all carry the missing id. -/
theorem claim_C8_witness :
    (updateReceipt DB.init 5 "가게" "2024-01-01" [] 0).1.receipts = DB.init.receipts ∧
    ∃ new, (updateReceipt DB.init 5 "가게" "2024-01-01" [] 0).1.items =
      DB.init.items.filter (fun it => it.receipt_id ≠ 5) ++ new ∧
      ∀ row ∈ new, row.receipt_id = 5 :=
  claim_C8_amended DB.init 5 "가게" "2024-01-01" [] 0 (by decide)

/-! ## Claim C9 — the persistence invariant -/

/-- An item row is taxonomy-consistent: some category name resolves to its
main id, and some subcategory listed under that category resolves (within
that main id) to its sub id. -/
def itemRowConsistent (row : ItemRow) : Prop :=
  ∃ c s, mainIdOf c = some row.main_category_id ∧ s ∈ subcatsOf c ∧
    subIdOf row.main_category_id s = some row.sub_category_id

/-- Every item row of the store is taxonomy-consistent. -/
def DBConsistent (db : DB) : Prop := ∀ row ∈ db.items, itemRowConsistent row

/-- Whatever `resolveIds` returns is a taxonomy-consistent id pair. -/
theorem resolveIds_consistent {cat sub : String} {m k : Nat}
    (h : resolveIds cat sub = some (m, k)) :
    ∃ c s, mainIdOf c = some m ∧ s ∈ subcatsOf c ∧ subIdOf m s = some k := by
  have extract : ∀ (sub' : String), getCategoryIds cat sub' = (some m, some k) →
      ∃ c s, mainIdOf c = some m ∧ s ∈ subcatsOf c ∧ subIdOf m s = some k := by
    intro sub' hg
    have hmem := getCategoryIds_some_mem hg
    unfold getCategoryIds at hg
    rcases hmm : mainIdOf cat with _ | mm
    · rw [hmm] at hg; simp at hg
    · rw [hmm] at hg
      simp only [Prod.mk.injEq, Option.some.injEq] at hg
      obtain ⟨rfl, hs⟩ := hg
      exact ⟨cat, sub', hmm, hmem, hs⟩
  unfold resolveIds at h
  split at h
  · rename_i heq
    cases h
    exact extract sub heq
  · split at h
    · rename_i best hbest
      split at h
      · rename_i heq2
        cases h
        exact extract (String.mk best) heq2
      · exact absurd h (by simp)
    · exact absurd h (by simp)

/-- The item loop preserves the invariant. -/
theorem insertItems_consistent (rid : Nat) :
    ∀ (items : List ItemIn) (db : DB), DBConsistent db →
      DBConsistent (insertItems db rid items).1 := by
  intro items
  induction items with
  | nil => intro db hdb; exact hdb
  | cons it rest ih =>
    intro db hdb
    simp only [insertItems]
    rcases hr : resolveIds it.category it.subcategory with _ | p
    · exact hdb
    · obtain ⟨m, s⟩ := p
      refine ih _ fun row hrow => ?_
      rcases List.mem_append.mp hrow with hmem | hnew
      · exact hdb row hmem
      · have : row = ⟨rid, it.name, m, s, it.amount⟩ := by simpa using hnew
        subst this
        obtain ⟨c, sname, h1, h2, h3⟩ := resolveIds_consistent hr
        exact ⟨c, sname, h1, h2, h3⟩

/-- C9: `add` and `update` preserve the invariant that every persisted
item row's subcategory belongs to its main category's subcategory set of
the fixed taxonomy. -/
theorem claim_C9_invariant (db : DB) (store date : String) (items : List ItemIn)
    (total : Int) (rid : Nat) (hdb : DBConsistent db) :
    DBConsistent (addReceipt db store date items total).1 ∧
    DBConsistent (updateReceipt db rid store date items total).1 := by
  constructor
  · simp only [addReceipt]
    exact insertItems_consistent _ _ _ fun row hrow => hdb row hrow
  · simp only [updateReceipt]
    refine insertItems_consistent _ _ _ fun row hrow => ?_
    exact hdb row (List.mem_of_mem_filter hrow)

/-- C9 witness: the invariant holds on the empty store and is carried
through a concrete `add` and a concrete `update`. -/
theorem claim_C9_witness :
    DBConsistent (addReceipt DB.init "스타벅스" "2024-03-15"
      [⟨"아메리카노", "음식", "음료", 4500⟩] 4500).1 ∧
    DBConsistent (updateReceipt DB.init 1 "가게" "2024-01-01"
      [⟨"김밥", "음식", "간식", 3000⟩] 3000).1 := by
  have h0 : DBConsistent DB.init := fun row hrow => absurd hrow (by simp [DB.init])
  exact ⟨(claim_C9_invariant DB.init "스타벅스" "2024-03-15"
      [⟨"아메리카노", "음식", "음료", 4500⟩] 4500 1 h0).1,
    (claim_C9_invariant DB.init "가게" "2024-01-01"
      [⟨"김밥", "음식", "간식", 3000⟩] 3000 1 h0).2⟩

/-! ## Claim C5 — the total is not locked on first match -/

/-- A model response containing two total-labelled lines with different
values: `총액: 4,500원` and later `합계: 9,999원`. -/
def overwriteDemoResponse : String :=
  "가게명: 스타벅스\n날짜: 2024-03-15\n아메리카노: 음식:음료 (4,500원)\n총액: 4,500원\n합계: 9,999원"

/-- C5 counterexample: the fourth line alone yields total 4500 and the
fifth alone 9999, yet the full parse of the five-line response returns
9999 — the later matching line overwrote the already-captured total, so
the total is not locked on its first successful match. -/
theorem claim_C5_counterexample :
    (searchTotalPatterns (pyStrip "총액: 4,500원".data)).bind parseTotalCapture =
      some 4500 ∧
    (searchTotalPatterns (pyStrip "합계: 9,999원".data)).bind parseTotalCapture =
      some 9999 ∧
    parseResponse overwriteDemoResponse "" =
      some ⟨"스타벅스", "2024-03-15", [⟨"아메리카노", "음식", "음료", 4500⟩], 9999⟩ ∧
    (9999 : Int) ≠ 4500 := by
  decide

/-- The total stage always stores the line's (parsable) matched value,
whatever the previous total was. -/
theorem stepTotal_total {st : ParseState} {l grp : List Char} {v : Int}
    {st' : ParseState} (hm : searchTotalPatterns l = some grp)
    (hv : parseTotalCapture grp = some v) (h : stepTotal st l = some st') :
    st'.total_amount = some v := by
  unfold stepTotal at h
  rw [hm] at h
  have h2 : (match parseTotalCapture grp with
    | some v => some { st with total_amount := some v }
    | none => none) = some st' := h
  rw [hv] at h2
  cases h2
  rfl

/-- C5 amended: the total is not locked.  For every state in which the
store name and the date are already captured (so neither earlier stage
consumes the line), processing a further line that matches a total
pattern with a parsable value `v` leaves the total at `v` — overwriting
any previously captured total; the parse therefore keeps the **last**
matching line's value (within one line, the patterns are still tried in
their fixed priority order). -/
theorem claim_C5_amended (st : ParseState) (line : List Char) (st' : ParseState)
    (hstore : st.store_name.isSome = true) (hdate : st.date.isSome = true)
    (hrun : processLine st line = some st')
    (grp : List Char) (v : Int)
    (hmatch : searchTotalPatterns (pyStrip line) = some grp)
    (hval : parseTotalCapture grp = some v) :
    st'.total_amount = some v := by
  simp only [processLine] at hrun
  split at hrun
  · rename_i hempty
    rw [hempty] at hmatch
    have hnone : searchTotalPatterns ([] : List Char) = none := by decide
    rw [hnone] at hmatch
    cases hmatch
  · split at hrun
    · rename_i hcond
      rcases hso : st.store_name with _ | sname
      · rw [hso] at hstore; simp at hstore
      · rw [hso] at hcond; simp at hcond
    · unfold stepDate at hrun
      split at hrun
      · rename_i hcond
        rcases hdo : st.date with _ | d
        · rw [hdo] at hdate; simp at hdate
        · rw [hdo] at hcond; simp at hcond
      · unfold stepItem at hrun
        split at hrun
        · split at hrun
          · split at hrun
            · split at hrun
              · split at hrun
                · exact stepTotal_total hmatch hval hrun
                · exact stepTotal_total hmatch hval hrun
              · cases hrun
            · exact stepTotal_total hmatch hval hrun
          · exact stepTotal_total hmatch hval hrun
        · exact stepTotal_total hmatch hval hrun

/-- The state before the fifth demo line: store, date and a 4500 total
already captured. -/
def c5StateIn : ParseState := ⟨some "스타벅스", some "2024-03-15", [], some 4500⟩

/-- The state after processing `합계: 9,999원` from `c5StateIn`. -/
def c5StateOut : ParseState := ⟨some "스타벅스", some "2024-03-15", [], some 9999⟩

/-- C5 witness: processing the line `합계: 9,999원` over a state whose
total is already 4500 overwrites it with 9999. -/
theorem claim_C5_witness : c5StateOut.total_amount = some 9999 :=
  claim_C5_amended c5StateIn "합계: 9,999원".data c5StateOut (by decide) (by decide)
    (by decide) "9,999".data 9999 (by decide) (by decide)

end CapDB
